import Mathlib

/-!
# Verification of the claude-code-discord-bot session orchestrator

Shallow embedding, in Lean 4, of the parts of the repository that the
frozen claims talk about:

* `src/utils/shell.ts` — `escapeShellString` and `buildClaudeCommand`;
* `src/claude/manager.ts` (and its fuller revision shipped in the
  repository) — the per-channel process registry (`reserveChannel`,
  `hasActiveProcess`, `killActiveProcess`, `clearSession`) and the
  newline-delimited JSON stream decoder of the stdout handler;
* `src/bot/client.ts` — the control flow of `DiscordBot.handleMessage`
  (which awaits are performed between the busy check and the reservation);
* `src/mcp/permission-manager.ts` — the `PermissionManager` approval
  broker (`requestApproval`, `handleApprovalReaction`,
  `handleApprovalTimeout`, `cleanupPendingApproval`).

JavaScript `Map`s iterated in insertion order are embedded as association
lists; `Map`s that are only read/written pointwise are embedded as
functions `String → Option _`.  Opaque collaborator values (Discord
message objects, child-process handles) are embedded as `Nat`
identifiers.  External library calls (`JSON.parse`) are embedded as
function parameters.
-/

namespace ShellUtil

/-- The single-quote character `'` (code 39). -/
def sqChar : Char := Char.ofNat 39

/-- The backslash character (code 92). -/
def bsChar : Char := Char.ofNat 92

/-- Image of one character of the prompt under the regex replacement
`str.replace(/'/g, "'\\''")` of `escapeShellString`
(`src/utils/shell.ts`): a single quote becomes the four characters
`'\''`; every other character is kept. -/
def escapeChar (c : Char) : List Char :=
  if c = sqChar then [sqChar, bsChar, sqChar, sqChar] else [c]

/-- Concatenation of the images of the elements of a list. -/
def concatMap (f : α → List β) : List α → List β
  | [] => []
  | a :: l => f a ++ concatMap f l

/-- `escapeShellString` from `src/utils/shell.ts`: replace every `'` by
`'\''` and wrap the whole string in single quotes. -/
def escapeShellString (s : String) : String :=
  String.mk (sqChar :: (concatMap escapeChar s.data ++ [sqChar]))

/-- Characters that a POSIX shell treats as syntax when they occur
unquoted in a word (whitespace, operators, expansions, globbing,
comments).  The word evaluator below refuses a word containing any of
them unquoted, so producing a value at all certifies that no character
of the word was interpreted as shell syntax. -/
def specialChars : List Char :=
  [' ', '\t', '\n', '$', '"', ';', '&', '|', '<', '>', '(', ')',
   '*', '?', '[', ']', '#', '~', '!', '=', '%',
   Char.ofNat 96, Char.ofNat 123, Char.ofNat 125]

/-- Is `c` shell syntax when unquoted? -/
def isShellSpecial (c : Char) : Bool := specialChars.contains c

mutual

/-- POSIX evaluation of a single shell word, outside quotes: a backslash
escapes the next character, an unquoted single quote opens a
single-quoted section, an unquoted special character (or a trailing
backslash) makes the token not a single plain word (`none`). -/
def evalUnquoted : List Char → Option (List Char)
  | [] => some []
  | c :: rest =>
    if c = bsChar then
      match rest with
      | [] => none
      | d :: rest₂ => Option.map (fun t => d :: t) (evalUnquoted rest₂)
    else if c = sqChar then evalSingleQuoted rest
    else if isShellSpecial c then none
    else Option.map (fun t => c :: t) (evalUnquoted rest)

/-- POSIX evaluation inside a single-quoted section: every character up
to the closing quote is literal; an unterminated quote is an error. -/
def evalSingleQuoted : List Char → Option (List Char)
  | [] => none
  | c :: rest =>
    if c = sqChar then evalUnquoted rest
    else Option.map (fun t => c :: t) (evalSingleQuoted rest)

end

/-- Evaluate one whole shell word under POSIX quoting rules. -/
def shellEvalWord (w : List Char) : Option (List Char) := w |> evalUnquoted

/-- The `commandParts` array of `buildClaudeCommand` from
`src/utils/shell.ts`: the base command with the MCP flags pushed, and
`--resume <sessionId>` spliced in at index 3 when a session id is
present.  The session MCP config path (produced by
`createSessionMcpConfig`, which touches the file system and a random
generator) is passed in as a parameter. -/
def buildClaudeCommandParts (workingDir prompt : String) (sessionId : Option String)
    (sessionMcpConfigPath : String) : List String :=
  let base : List String :=
    ["cd " ++ workingDir, "&&", "claude", "--output-format", "stream-json",
     "--model", "sonnet", "-p", escapeShellString prompt, "--verbose",
     "--mcp-config", sessionMcpConfigPath,
     "--permission-prompt-tool", "mcp__discord-permissions__approve_tool",
     "--allowedTools", "mcp__discord-permissions"]
  match sessionId with
  | some sid => base.take 3 ++ ["--resume", sid] ++ base.drop 3
  | none => base

/-- `buildClaudeCommand` from `src/utils/shell.ts`: the parts joined
with single spaces. -/
def buildClaudeCommand (workingDir prompt : String) (sessionId : Option String)
    (sessionMcpConfigPath : String) : String :=
  String.intercalate " " (buildClaudeCommandParts workingDir prompt sessionId sessionMcpConfigPath)

end ShellUtil

namespace Stream

/-- JavaScript `String.prototype.trim` whitespace, restricted to the
ASCII whitespace characters that can occur in the line protocol. -/
def isJsWs (c : Char) : Bool :=
  c = ' ' || c = '\t' || c = '\n' || c = '\r' || c = Char.ofNat 11 || c = Char.ofNat 12

/-- `line.trim()` of the stdout data handler: drop leading and trailing
whitespace. -/
def jsTrim (l : List Char) : List Char :=
  ((l.dropWhile isJsWs).reverse.dropWhile isJsWs).reverse

/-- `buffer.split("\n")` of the stdout data handler
(`src/claude/manager.ts`): like JavaScript `split`, the result always
has one more element than the number of newlines, so it is never empty
and empty segments are kept. -/
def splitNl : List Char → List (List Char)
  | [] => [[]]
  | c :: cs =>
    match splitNl cs with
    | [] => [[]]
    | h :: t => if c = '\n' then [] :: h :: t else (c :: h) :: t

/-- The `type` discriminator of a decoded `SDKMessage`; the stdout
handler routes a parsed line on exactly this tag. -/
inductive MsgType where
  | system
  | assistant
  | user
  | result
  | other
  deriving DecidableEq

/-- A decoded protocol message.  Only the routing tag matters to the
dispatch switch of the stdout handler, so the remaining JSON fields are
not carried. -/
structure SDKMsg where
  type : MsgType
  deriving DecidableEq

/-- Observable outcome of processing one complete line: either the
parsed message was handed to the dispatch switch, or
`console.error("Error parsing JSON", ...)` was logged. -/
inductive StreamEvent where
  | dispatched (m : SDKMsg)
  | parseError (line : List Char)
  deriving DecidableEq

/-- The per-line body of the stdout data handler
(`src/claude/manager.ts` lines 189-217): skip lines that trim to
nothing, otherwise `JSON.parse` the line (embedded as the `parse`
parameter) and either dispatch the message or log a parse error. -/
def handleLine (parse : List Char → Option SDKMsg) (line : List Char) : List StreamEvent :=
  if jsTrim line = [] then []
  else
    match parse line with
    | some m => [StreamEvent.dispatched m]
    | none => [StreamEvent.parseError line]

/-- One `claude.stdout.on("data", ...)` invocation
(`src/claude/manager.ts` lines 173-219): append the chunk to the
buffered tail, split on newline, pop the last segment back into the
buffer without parsing it, and process every earlier segment in order.
Returns the new buffered tail and the events produced. -/
def feed (parse : List Char → Option SDKMsg) (buffer chunk : List Char) :
    List Char × List StreamEvent :=
  let buf := buffer ++ chunk
  let lines := splitNl buf
  (lines.getLastD [], ShellUtil.concatMap (handleLine parse) lines.dropLast)

/-- Does the event dispatch a `result`-typed message? -/
def isResultEvent : StreamEvent → Bool
  | StreamEvent.dispatched m => m.type = MsgType.result
  | _ => false

/-- Is the event a logged parse error? -/
def isParseErrorEvent : StreamEvent → Bool
  | StreamEvent.parseError _ => true
  | _ => false

end Stream

namespace Claude

/-- One entry of the `channelProcesses` map of `ClaudeManager`: the
(initially null) child-process handle, the reserved session id, and the
Discord status message.  Handles and messages are embedded as `Nat`
identifiers. -/
structure ProcSlot where
  process : Option Nat
  sessionId : Option String
  discordMessage : Nat
  deriving DecidableEq

/-- An OS signal sent to a child process. -/
inductive Signal where
  | sigterm (pid : Nat)
  deriving DecidableEq

/-- The per-channel mutable state of `ClaudeManager` (the fuller
revision of `src/claude/manager.ts`, which also keeps `toolSummaries`
and a per-channel `jsonBuffers` stream buffer), plus the sessions table
of its `DatabaseManager` persistence collaborator.  Each JavaScript
`Map` is embedded as a pointwise function. -/
structure ManagerState where
  channelMessages : String → Option Nat
  channelToolCalls : String → Option (List (String × Nat))
  channelNames : String → Option String
  channelProcesses : String → Option ProcSlot
  toolSummaries : String → Option (List (String × Nat))
  jsonBuffers : String → Option (List Char)
  dbSessions : String → Option String

/-- Pointwise map update: `m.set k v` / `m.delete k`. -/
def fset (m : String → Option α) (k : String) (v : Option α) : String → Option α :=
  fun x => if x = k then v else m x

/-- `ClaudeManager.hasActiveProcess`: `channelProcesses.has(channelId)`. -/
def hasActiveProcess (s : ManagerState) (ch : String) : Bool :=
  (s.channelProcesses ch).isSome

/-- `ClaudeManager.killActiveProcess`: send SIGTERM to the slot's
process handle when one is installed; the map itself is not touched.
Returns the unchanged state and the emitted signals. -/
def killActiveProcess (s : ManagerState) (ch : String) : ManagerState × List Signal :=
  match s.channelProcesses ch with
  | some slot =>
    match slot.process with
    | some pid => (s, [Signal.sigterm pid])
    | none => (s, [])
  | none => (s, [])

/-- `ClaudeManager.clearSession`: kill any active process, tell the
persistence collaborator to forget the channel's session id, and delete
the channel's entry from every per-channel map. -/
def clearSession (s : ManagerState) (ch : String) : ManagerState × List Signal :=
  let k := killActiveProcess s ch
  ({ channelMessages := fset s.channelMessages ch none
     channelToolCalls := fset s.channelToolCalls ch none
     channelNames := fset s.channelNames ch none
     channelProcesses := fset s.channelProcesses ch none
     toolSummaries := fset s.toolSummaries ch none
     jsonBuffers := fset s.jsonBuffers ch none
     dbSessions := fset s.dbSessions ch none }, k.2)

/-- `ClaudeManager.reserveChannel`: SIGTERM any existing non-null
process handle for the channel, then overwrite the slot with the
placeholder reservation `{process: null, sessionId, discordMessage}`. -/
def reserveChannel (s : ManagerState) (ch : String) (sid : Option String) (msg : Nat) :
    ManagerState × List Signal :=
  let sigs :=
    match s.channelProcesses ch with
    | some slot =>
      match slot.process with
      | some pid => [Signal.sigterm pid]
      | none => []
    | none => []
  let reserved : ProcSlot := { process := none, sessionId := sid, discordMessage := msg }
  ({ s with channelProcesses := fset s.channelProcesses ch (some reserved) }, sigs)

/-- The cleanup performed by the `claude.on("close", ...)` handler of
`runClaudeCode`: `channelProcesses.delete(channelId)`. -/
def closeHandlerCleanup (s : ManagerState) (ch : String) : ManagerState :=
  { s with channelProcesses := fset s.channelProcesses ch none }

end Claude

namespace Bot

/-- One step of `DiscordBot.handleMessage` (`src/bot/client.ts`),
classified by whether it is the busy check, an awaited asynchronous
operation, the slot reservation, or a synchronous action. -/
inductive BotAction where
  | checkActive
  | awaitOp (description : String)
  | installReservation
  | syncOp (description : String)
  deriving DecidableEq

/-- The sequence of steps `DiscordBot.handleMessage` performs on the
happy path for an authorized user in a non-general channel, in source
order: the `hasActiveProcess` busy check, the synchronous session-id
lookup, (for audio messages) three awaited transcription steps, the
awaited send of the status embed, the synchronous
`setDiscordMessage`, the `reserveChannel` call, and the awaited
`runClaudeCode`. -/
def handleMessageSteps (isAudio : Bool) : List BotAction :=
  [BotAction.checkActive, BotAction.syncOp "getSessionId"]
  ++ (if isAudio then
        [BotAction.awaitOp "channel.send processing embed",
         BotAction.awaitOp "audioTranscription.processAudioMessage",
         BotAction.awaitOp "processingMessage.edit transcribed embed"]
      else [])
  ++ [BotAction.awaitOp "channel.send status embed",
      BotAction.syncOp "setDiscordMessage",
      BotAction.installReservation,
      BotAction.awaitOp "runClaudeCode"]

/-- Is the step an awaited asynchronous operation? -/
def isAwait : BotAction → Bool
  | BotAction.awaitOp _ => true
  | _ => false

/-- Number of awaited asynchronous operations performed after the
`hasActiveProcess` busy check and before the `reserveChannel`
installation. -/
def awaitsBetweenCheckAndReserve (steps : List BotAction) : Nat :=
  List.countP isAwait
    ((steps.dropWhile (fun a => !(a == BotAction.checkActive))).takeWhile
      (fun a => !(a == BotAction.installReservation)))

end Bot

namespace Mcp

/-- The `DiscordContext` carried by a permission request
(`src/mcp/permission-manager.ts`). -/
structure DiscordCtx where
  channelId : String
  channelName : String
  userId : String
  messageId : Option String
  deriving DecidableEq

/-- A `PendingApproval` record: the request id, the tool and its input,
the originating Discord context, and the id of the approval message
posted to Discord (`pendingApproval.discordMessage`, set once
`sendApprovalMessage` succeeds).  The `resolve` continuation is not
stored; its invocations are returned by the transition functions as an
explicit resolution list.  The armed `setTimeout` is not stored either:
a timer firing is embedded as a call of `handleApprovalTimeout`, whose
lookup guard makes a fire after cleanup a no-op, so `clearTimeout` is
subsumed. -/
structure PendingApproval where
  requestId : String
  toolName : String
  input : String
  discordContext : DiscordCtx
  discordMessageId : Option String
  deriving DecidableEq

/-- A `PermissionDecision` (`src/mcp/permissions.ts` shape as used by
the manager): behavior `"allow"` or `"deny"`, the input passed back on
allow, and an optional reason message. -/
structure PermissionDecision where
  behavior : String
  updatedInput : Option String
  message : Option String
  deriving DecidableEq

/-- The mutable state of `PermissionManager`: the `pendingApprovals`
map (an insertion-ordered association list, iterated by
`handleApprovalReaction`) and the two constructor-derived settings. -/
structure BrokerState where
  pendingApprovals : List (String × PendingApproval)
  approvalTimeout : Nat
  defaultOnTimeout : String
  deriving DecidableEq

/-- First value stored under key `k`, `Map.get`. -/
def alistLookup (k : String) : List (String × α) → Option α
  | [] => none
  | e :: rest => if e.1 = k then some e.2 else alistLookup k rest

/-- `Map.delete k`: drop the entry stored under `k`. -/
def alistErase (k : String) (l : List (String × α)) : List (String × α) :=
  l.filter (fun e => !(e.1 == k))

/-- `Map.set k v`: overwrite in place when the key is present, append
otherwise. -/
def alistSet (k : String) (v : α) (l : List (String × α)) : List (String × α) :=
  if l.any (fun e => e.1 == k) then
    l.map (fun e => if e.1 == k then (k, v) else e)
  else l ++ [(k, v)]

/-- `this.defaultOnTimeout` from the `PermissionManager` constructor:
`(process.env.MCP_DEFAULT_ON_TIMEOUT as 'allow' | 'deny') || 'deny'` —
an unset or empty environment variable yields `"deny"`. -/
def mkDefaultOnTimeout (env : Option String) : String :=
  match env with
  | none => "deny"
  | some s => if s = "" then "deny" else s

/-- Modelled from the spec: the static risk classifier
`requiresApproval` lives in `src/mcp/discord-context.ts`, which is
absent from the sources (only this caller imports it).  Spec §4.4:
known-safe tool names resolve immediately as approved; known-dangerous
and unrecognized tool names require interactive approval (unknown tools
default to requiring approval — fail safe).  The safe list is
instantiated from the repository's plan document ("Safe tools (Read,
LS, etc.)"); any name outside it requires approval.  The tool input
does not influence the static classification. -/
def safeTools : List String := ["Read", "LS"]

/-- Modelled from the spec: see `safeTools`.  A tool requires approval
exactly when its name is not on the static safe list. -/
def requiresApproval (toolName : String) (_input : String) : Bool :=
  !(safeTools.contains toolName)

/-- Result of `PermissionManager.requestApproval`: an immediately
returned decision, a fall back to the basic `approveToolRequest` logic
(no Discord context or no Discord bot), or a registered
`PendingApproval` whose promise resolves later. -/
inductive ApprovalOutcome where
  | decided (d : PermissionDecision)
  | fallbackBasic
  | pendingInteractive (rid : String)
  deriving DecidableEq

/-- Side effects of `requestApproval` other than state mutation. -/
inductive BrokerEffect where
  | sendApprovalMessage (rid : String)
  deriving DecidableEq

/-- The `PendingApproval` record built by
`requestInteractiveApproval`; `discordMessage` starts unset. -/
def mkPending (rid tool input : String) (ctx : DiscordCtx) : PendingApproval :=
  { requestId := rid, toolName := tool, input := input,
    discordContext := ctx, discordMessageId := none }

/-- `PermissionManager.requestApproval`
(`src/mcp/permission-manager.ts` lines 27-63) together with the
registration step of `requestInteractiveApproval` (lines 68-108): no
context or no bot falls back to the basic logic; a tool the classifier
calls safe is auto-approved with the unchanged input; otherwise the
pending record is stored under the generated request id (passed in as
`rid`, standing for `generateRequestId()`) and the approval message
send is emitted.  Returns the new state, the outcome, and the emitted
effects. -/
def requestApproval (s : BrokerState) (hasBot : Bool) (toolName input : String)
    (ctx : Option DiscordCtx) (rid : String) :
    BrokerState × ApprovalOutcome × List BrokerEffect :=
  match ctx with
  | none => (s, ApprovalOutcome.fallbackBasic, [])
  | some c =>
    if !hasBot then (s, ApprovalOutcome.fallbackBasic, [])
    else if !(requiresApproval toolName input) then
      (s, ApprovalOutcome.decided
            { behavior := "allow", updatedInput := some input, message := none }, [])
    else
      ({ s with pendingApprovals := alistSet rid (mkPending rid toolName input c) s.pendingApprovals },
       ApprovalOutcome.pendingInteractive rid,
       [BrokerEffect.sendApprovalMessage rid])

/-- `PermissionManager.cleanupPendingApproval`: clear the timer (see
`PendingApproval`) and delete the record. -/
def cleanupPendingApproval (s : BrokerState) (rid : String) : BrokerState :=
  { s with pendingApprovals := alistErase rid s.pendingApprovals }

/-- The match performed by the lookup loop of
`handleApprovalReaction`: same channel and same approval-message id. -/
def matchesReaction (channelId messageId : String) (p : PendingApproval) : Bool :=
  p.discordContext.channelId == channelId && p.discordMessageId == some messageId

/-- `PermissionManager.handleApprovalReaction`
(`src/mcp/permission-manager.ts` lines 148-200): find the first pending
approval whose channel and approval-message id match; ignore the signal
when none matches or the reacting user is not the original requester;
otherwise build the allow/deny decision, invoke the stored resolve
continuation (returned in the resolution list), and clean the record
up. -/
def handleApprovalReaction (s : BrokerState) (channelId messageId userId : String)
    (approved : Bool) : BrokerState × List (String × PermissionDecision) :=
  match s.pendingApprovals.find? (fun e => matchesReaction channelId messageId e.2) with
  | none => (s, [])
  | some e =>
    if userId = e.2.discordContext.userId then
      let d : PermissionDecision :=
        { behavior := if approved then "allow" else "deny"
          updatedInput := if approved then some e.2.input else none
          message := if approved then none else some "Denied by user via Discord reaction" }
      (cleanupPendingApproval s e.1, [(e.1, d)])
    else (s, [])

/-- The reason string of the timeout decision of
`handleApprovalTimeout`. -/
def timeoutMessage (timeoutMs : Nat) (defaultB : String) : String :=
  "Timed out after " ++ (toString (timeoutMs / 1000) ++ (" seconds, defaulted to " ++ defaultB))

/-- `PermissionManager.handleApprovalTimeout`
(`src/mcp/permission-manager.ts` lines 205-227): a no-op when the
record is already gone; otherwise resolve with the configured default
decision, carrying the timeout reason, and clean the record up. -/
def handleApprovalTimeout (s : BrokerState) (rid : String) :
    BrokerState × List (String × PermissionDecision) :=
  match alistLookup rid s.pendingApprovals with
  | none => (s, [])
  | some p =>
    let d : PermissionDecision :=
      { behavior := s.defaultOnTimeout
        updatedInput := if s.defaultOnTimeout = "allow" then some p.input else none
        message := some (timeoutMessage s.approvalTimeout s.defaultOnTimeout) }
    (cleanupPendingApproval s rid, [(rid, d)])

end Mcp

namespace Samples

/-- A concrete `JSON.parse` stand-in for evaluating the decoder: the
one-character line `r` parses to a `result`-typed message, everything
else fails to parse. -/
def parseW : List Char → Option Stream.SDKMsg :=
  fun l => if l = ['r'] then some { type := Stream.MsgType.result } else none

/-- A concrete slot holding a live process handle. -/
def sampleSlot : Claude.ProcSlot :=
  { process := some 5, sessionId := some "s1", discordMessage := 7 }

/-- A concrete manager state with one busy channel `chan`. -/
def sampleManagerState : Claude.ManagerState :=
  { channelMessages := fun ch => if ch = "chan" then some 3 else none
    channelToolCalls := fun ch => if ch = "chan" then some [("t1", 4)] else none
    channelNames := fun ch => if ch = "chan" then some "proj" else none
    channelProcesses := fun ch => if ch = "chan" then some sampleSlot else none
    toolSummaries := fun ch => if ch = "chan" then some [("t1", 9)] else none
    jsonBuffers := fun ch => if ch = "chan" then some ['x'] else none
    dbSessions := fun ch => if ch = "chan" then some "s1" else none }

/-- A concrete Discord context. -/
def sampleCtx : Mcp.DiscordCtx :=
  { channelId := "chan", channelName := "proj", userId := "user", messageId := some "origin" }

/-- A concrete pending approval whose notification message `appr` has
been posted. -/
def samplePending : Mcp.PendingApproval :=
  { requestId := "req1", toolName := "Bash", input := "rm x",
    discordContext := sampleCtx, discordMessageId := some "appr" }

/-- A concrete broker state holding `samplePending`. -/
def sampleBroker : Mcp.BrokerState :=
  { pendingApprovals := [("req1", samplePending)],
    approvalTimeout := 30000, defaultOnTimeout := "deny" }

end Samples

/-! ## Theorems -/

namespace ShellUtil

theorem evalUnquoted_nil : evalUnquoted [] = some [] := by
  rw [evalUnquoted.eq_def]

theorem evalUnquoted_cons (c : Char) (rest : List Char) :
    evalUnquoted (c :: rest)
      = if c = bsChar then
          (match rest with
           | [] => none
           | d :: rest₂ => Option.map (fun t => d :: t) (evalUnquoted rest₂))
        else if c = sqChar then evalSingleQuoted rest
        else if isShellSpecial c then none
        else Option.map (fun t => c :: t) (evalUnquoted rest) := by
  rw [evalUnquoted.eq_def]

theorem evalSingleQuoted_cons (c : Char) (rest : List Char) :
    evalSingleQuoted (c :: rest)
      = if c = sqChar then evalUnquoted rest
        else Option.map (fun t => c :: t) (evalSingleQuoted rest) := by
  rw [evalSingleQuoted.eq_def]

theorem evalUnquoted_bs (d : Char) (rest : List Char) :
    evalUnquoted (bsChar :: d :: rest) = Option.map (fun t => d :: t) (evalUnquoted rest) := by
  rw [evalUnquoted_cons, if_pos rfl]

theorem evalUnquoted_sq (rest : List Char) :
    evalUnquoted (sqChar :: rest) = evalSingleQuoted rest := by
  rw [evalUnquoted_cons, if_neg (by decide), if_pos rfl]

theorem evalSingleQuoted_escape (s k : List Char) :
    evalSingleQuoted (concatMap escapeChar s ++ sqChar :: k)
      = Option.map (fun t => s ++ t) (evalUnquoted k) := by
  induction s with
  | nil =>
    rw [concatMap, List.nil_append, evalSingleQuoted_cons, if_pos rfl]
    cases evalUnquoted k <;> rfl
  | cons c s ih =>
    by_cases hc : c = sqChar
    · subst hc
      rw [concatMap, show escapeChar sqChar = [sqChar, bsChar, sqChar, sqChar] from rfl]
      simp only [List.append_assoc, List.cons_append, List.nil_append]
      rw [evalSingleQuoted_cons, if_pos rfl]
      rw [evalUnquoted_bs, evalUnquoted_sq]
      rw [ih]
      cases evalUnquoted k <;> rfl
    · rw [concatMap, show escapeChar c = [c] by rw [escapeChar, if_neg hc]]
      simp only [List.cons_append, List.nil_append]
      rw [evalSingleQuoted_cons, if_neg hc, ih]
      cases evalUnquoted k <;> rfl

theorem shellEvalWord_escape (s : String) :
    shellEvalWord (escapeShellString s).data = some s.data := by
  show evalUnquoted (sqChar :: (concatMap escapeChar s.data ++ [sqChar])) = some s.data
  rw [evalUnquoted_sq]
  rw [show ([sqChar] : List Char) = sqChar :: [] from rfl, evalSingleQuoted_escape]
  rw [evalUnquoted_nil]
  simp

end ShellUtil

/-- C10: shell-escaping round-trip — for every prompt string `s`,
`escapeShellString s` wraps `s` in single quotes with each embedded
single quote replaced by `'\''`, and a POSIX shell evaluating the
resulting word recovers exactly `s` (so no character of the prompt is
interpreted as shell syntax); and `buildClaudeCommand` always embeds
the prompt as the argument of `-p` through `escapeShellString`, both
with and without a `--resume` session id. -/
theorem shell_escape_roundtrip_and_prompt_embedding
    (s workingDir prompt cfg sid : String) :
    ShellUtil.shellEvalWord (ShellUtil.escapeShellString s).data = some s.data
    ∧ (ShellUtil.buildClaudeCommandParts workingDir prompt none cfg).get? 7 = some "-p"
    ∧ (ShellUtil.buildClaudeCommandParts workingDir prompt none cfg).get? 8
        = some (ShellUtil.escapeShellString prompt)
    ∧ (ShellUtil.buildClaudeCommandParts workingDir prompt (some sid) cfg).get? 9 = some "-p"
    ∧ (ShellUtil.buildClaudeCommandParts workingDir prompt (some sid) cfg).get? 10
        = some (ShellUtil.escapeShellString prompt) :=
  ⟨ShellUtil.shellEvalWord_escape s, rfl, rfl, rfl, rfl⟩

namespace Stream

theorem splitNl_cons (c : Char) (cs : List Char) :
    splitNl (c :: cs)
      = match splitNl cs with
        | [] => [[]]
        | h :: t => if c = '\n' then [] :: h :: t else (c :: h) :: t := by
  rw [splitNl]

theorem splitNl_noNl (l : List Char) (h : ∀ c ∈ l, c ≠ '\n') : splitNl l = [l] := by
  induction l with
  | nil => rfl
  | cons c cs ih =>
    have hc : ¬ (c = '\n') := h c (by simp)
    have hcs : ∀ x ∈ cs, x ≠ '\n' := fun x hx => h x (by simp [hx])
    rw [splitNl_cons, ih hcs]
    simp [hc]

theorem splitNl_append_front (a : List Char) (h : ∀ c ∈ a, c ≠ '\n')
    (b hd : List Char) (tl : List (List Char)) (hb : splitNl b = hd :: tl) :
    splitNl (a ++ b) = (a ++ hd) :: tl := by
  induction a with
  | nil => simpa using hb
  | cons c a ih =>
    have hc : ¬ (c = '\n') := h c (by simp)
    have ha : ∀ x ∈ a, x ≠ '\n' := fun x hx => h x (by simp [hx])
    rw [List.cons_append, splitNl_cons, ih ha]
    simp [hc]

theorem splitNl_line (s : List Char) (h : ∀ c ∈ s, c ≠ '\n') :
    splitNl (s ++ ['\n']) = [s, []] := by
  have hb : splitNl ['\n'] = [] :: [[]] := rfl
  have := splitNl_append_front s h ['\n'] [] [[]] hb
  simpa using this

theorem feed_noNl (parse : List Char → Option SDKMsg) (buffer chunk : List Char)
    (h : ∀ c ∈ buffer ++ chunk, c ≠ '\n') :
    feed parse buffer chunk = (buffer ++ chunk, []) := by
  simp [feed, splitNl_noNl _ h, ShellUtil.concatMap]

theorem feed_complete (parse : List Char → Option SDKMsg) (buffer rest : List Char)
    (h : ∀ c ∈ buffer ++ rest, c ≠ '\n') :
    feed parse buffer (rest ++ ['\n']) = ([], handleLine parse (buffer ++ rest)) := by
  simp only [feed]
  rw [← List.append_assoc, splitNl_line _ h]
  simp [ShellUtil.concatMap]

theorem handleLine_parsed (parse : List Char → Option SDKMsg) (s : List Char) (m : SDKMsg)
    (hne : jsTrim s ≠ []) (hp : parse s = some m) :
    handleLine parse s = [StreamEvent.dispatched m] := by
  simp [handleLine, hne, hp]

end Stream

/-- C2: stream reassembly is exactly-once — for every complete result
line (a newline-free line that parses to a `result`-typed message and
does not trim to nothing) and every split of the newline-terminated
line into two chunks fed in order from an empty buffer, the stdout
decoder dispatches exactly one result message, never zero, never two,
logs no parse error, and ends with an empty buffered tail. -/
theorem stream_reassembly_exactly_once
    (parse : List Char → Option Stream.SDKMsg) (s c₁ c₂ : List Char) (m : Stream.SDKMsg)
    (hnl : ∀ c ∈ s, c ≠ '\n')
    (hne : Stream.jsTrim s ≠ [])
    (hp : parse s = some m)
    (hm : m.type = Stream.MsgType.result)
    (hsplit : c₁ ++ c₂ = s ++ ['\n']) :
    List.countP Stream.isResultEvent
        ((Stream.feed parse [] c₁).2 ++ (Stream.feed parse (Stream.feed parse [] c₁).1 c₂).2) = 1
    ∧ List.countP Stream.isParseErrorEvent
        ((Stream.feed parse [] c₁).2 ++ (Stream.feed parse (Stream.feed parse [] c₁).1 c₂).2) = 0
    ∧ (Stream.feed parse (Stream.feed parse [] c₁).1 c₂).1 = [] := by
  rcases List.append_eq_append_iff.mp hsplit with ⟨a, ha1, ha2⟩ | ⟨c, hc1, hc2⟩
  · -- the first chunk is a proper prefix of the line
    have hc₁ : ∀ c ∈ c₁, c ≠ '\n' := fun c hc => hnl c (by rw [ha1]; exact List.mem_append_left _ hc)
    have h1 : Stream.feed parse [] c₁ = (c₁, []) := by
      have := Stream.feed_noNl parse [] c₁ (by simpa using hc₁)
      simpa using this
    have h2 : Stream.feed parse c₁ (a ++ ['\n']) = ([], Stream.handleLine parse s) := by
      have := Stream.feed_complete parse c₁ a (by rw [← ha1]; exact hnl)
      rw [← ha1] at this
      exact this
    rw [h1, ha2]
    simp only [h2]
    rw [Stream.handleLine_parsed parse s m hne hp]
    simp [Stream.isResultEvent, Stream.isParseErrorEvent, hm]
  · -- the first chunk already carries the newline
    rcases c with _ | ⟨x, xs⟩
    · -- the terminator sits alone in the second chunk
      have hc2' : c₂ = ['\n'] := by simpa using hc2.symm
      have hc1' : c₁ = s := by simpa using hc1
      subst hc1' hc2'
      have h1 : Stream.feed parse [] c₁ = (c₁, []) := by
        have := Stream.feed_noNl parse [] c₁ (by simpa using hnl)
        simpa using this
      have h2 : Stream.feed parse c₁ ['\n'] = ([], Stream.handleLine parse c₁) := by
        have := Stream.feed_complete parse c₁ [] (by simpa using hnl)
        simpa using this
      rw [h1]
      simp only [h2]
      rw [Stream.handleLine_parsed parse c₁ m hne hp]
      simp [Stream.isResultEvent, Stream.isParseErrorEvent, hm]
    · -- the first chunk is the whole terminated line
      have h3 : x = '\n' ∧ xs = [] ∧ c₂ = [] := by
        have h4 := hc2.symm
        simp at h4
        exact h4
      obtain ⟨hx1, hxs, hc₂⟩ := h3
      have hc1' : c₁ = s ++ ['\n'] := by rw [hc1, hx1, hxs]
      subst hc1' hc₂
      have h1 : Stream.feed parse [] (s ++ ['\n']) = ([], Stream.handleLine parse s) := by
        have := Stream.feed_complete parse [] s (by simpa using hnl)
        simpa using this
      have h2 : Stream.feed parse [] [] = ([], []) := rfl
      rw [h1]
      simp only [h2]
      rw [Stream.handleLine_parsed parse s m hne hp]
      simp [Stream.isResultEvent, Stream.isParseErrorEvent, hm]

/-- Witness for C2: the result line `r`, split as `r` then the newline,
dispatches exactly one result message and logs no error. -/
theorem stream_reassembly_exactly_once_witness :
    List.countP Stream.isResultEvent
        ((Stream.feed Samples.parseW [] ['r']).2
          ++ (Stream.feed Samples.parseW (Stream.feed Samples.parseW [] ['r']).1 ['\n']).2) = 1
    ∧ List.countP Stream.isParseErrorEvent
        ((Stream.feed Samples.parseW [] ['r']).2
          ++ (Stream.feed Samples.parseW (Stream.feed Samples.parseW [] ['r']).1 ['\n']).2) = 0
    ∧ (Stream.feed Samples.parseW (Stream.feed Samples.parseW [] ['r']).1 ['\n']).1 = [] :=
  stream_reassembly_exactly_once Samples.parseW ['r'] ['r'] ['\n']
    { type := Stream.MsgType.result }
    (by decide) (by decide) (by decide) rfl rfl

namespace Claude

theorem fset_fset_none (m : String → Option α) (ch : String) :
    fset (fset m ch none) ch none = fset m ch none := by
  funext x
  by_cases hx : x = ch <;> simp [fset, hx]

theorem killActiveProcess_state (s : ManagerState) (ch : String) :
    (killActiveProcess s ch).1 = s := by
  rcases h : s.channelProcesses ch with _ | slot
  · simp [killActiveProcess, h]
  · rcases hp : slot.process with _ | pid <;> simp [killActiveProcess, h, hp]

end Claude

/-- C1: single-flight invariant of the session registry — after
`reserveChannel`, the channel's slot holds exactly the placeholder
reservation `{process := null, sessionId, discordMessage}`, and when
the channel's previous slot held a non-null process handle that handle
is sent SIGTERM during the call (no signal is sent when the slot was
absent or held a null handle). -/
theorem reserveChannel_single_flight
    (s : Claude.ManagerState) (ch : String) (sid : Option String) (msg : Nat)
    (slot : Claude.ProcSlot) (pid : Nat) :
    ((Claude.reserveChannel s ch sid msg).1.channelProcesses ch
        = some { process := none, sessionId := sid, discordMessage := msg })
    ∧ (s.channelProcesses ch = some slot → slot.process = some pid →
        (Claude.reserveChannel s ch sid msg).2 = [Claude.Signal.sigterm pid])
    ∧ (s.channelProcesses ch = some slot → slot.process = none →
        (Claude.reserveChannel s ch sid msg).2 = [])
    ∧ (s.channelProcesses ch = none → (Claude.reserveChannel s ch sid msg).2 = []) := by
  refine ⟨by simp [Claude.reserveChannel, Claude.fset], ?_, ?_, ?_⟩
  · intro h1 h2
    simp [Claude.reserveChannel, h1, h2]
  · intro h1 h2
    simp [Claude.reserveChannel, h1, h2]
  · intro h1
    simp [Claude.reserveChannel, h1]

/-- Witness for C1: reserving the busy channel `chan` SIGTERMs the live
handle 5 and installs the null-process reservation. -/
theorem reserveChannel_single_flight_witness :
    ((Claude.reserveChannel Samples.sampleManagerState "chan" (some "s2") 8).1.channelProcesses "chan"
        = some { process := none, sessionId := some "s2", discordMessage := 8 })
    ∧ (Claude.reserveChannel Samples.sampleManagerState "chan" (some "s2") 8).2
        = [Claude.Signal.sigterm 5] := by
  obtain ⟨h1, h2, h3, h4⟩ :=
    reserveChannel_single_flight Samples.sampleManagerState "chan" (some "s2") 8
      Samples.sampleSlot 5
  exact ⟨h1, h2 rfl rfl⟩

/-- C9 (implicit): `killActiveProcess` only sends SIGTERM and never
removes the channel's slot entry — the manager state is unchanged, so
`hasActiveProcess` still returns `true` immediately afterwards for any
channel with an installed slot. -/
theorem killActiveProcess_keeps_slot (s : Claude.ManagerState) (ch : String) :
    (Claude.killActiveProcess s ch).1 = s
    ∧ (Claude.hasActiveProcess s ch = true →
        Claude.hasActiveProcess (Claude.killActiveProcess s ch).1 ch = true) := by
  have hstate := Claude.killActiveProcess_state s ch
  exact ⟨hstate, fun hact => by rw [hstate]; exact hact⟩

/-- Witness for C9: killing the busy channel `chan` leaves the state
unchanged and the channel still counts as active. -/
theorem killActiveProcess_keeps_slot_witness :
    (Claude.killActiveProcess Samples.sampleManagerState "chan").1 = Samples.sampleManagerState
    ∧ Claude.hasActiveProcess (Claude.killActiveProcess Samples.sampleManagerState "chan").1 "chan"
        = true := by
  obtain ⟨h1, h2⟩ := killActiveProcess_keeps_slot Samples.sampleManagerState "chan"
  exact ⟨h1, h2 rfl⟩

/-- C7: completeness of clear — `clearSession` removes the channel's
process slot, tool-call records, stream buffer, status message, stored
name and tool summaries, instructs the persistence collaborator to
forget the session id, and SIGTERMs the active process when the slot
held a live handle. -/
theorem clearSession_clears_all
    (s : Claude.ManagerState) (ch : String) (slot : Claude.ProcSlot) (pid : Nat) :
    ((Claude.clearSession s ch).1.channelProcesses ch = none)
    ∧ ((Claude.clearSession s ch).1.channelToolCalls ch = none)
    ∧ ((Claude.clearSession s ch).1.jsonBuffers ch = none)
    ∧ ((Claude.clearSession s ch).1.channelMessages ch = none)
    ∧ ((Claude.clearSession s ch).1.channelNames ch = none)
    ∧ ((Claude.clearSession s ch).1.toolSummaries ch = none)
    ∧ ((Claude.clearSession s ch).1.dbSessions ch = none)
    ∧ (s.channelProcesses ch = some slot → slot.process = some pid →
        (Claude.clearSession s ch).2 = [Claude.Signal.sigterm pid]) := by
  refine ⟨?_, ?_, ?_, ?_, ?_, ?_, ?_, ?_⟩
  · simp [Claude.clearSession, Claude.fset]
  · simp [Claude.clearSession, Claude.fset]
  · simp [Claude.clearSession, Claude.fset]
  · simp [Claude.clearSession, Claude.fset]
  · simp [Claude.clearSession, Claude.fset]
  · simp [Claude.clearSession, Claude.fset]
  · simp [Claude.clearSession, Claude.fset]
  · intro h1 h2
    simp [Claude.clearSession, Claude.killActiveProcess, h1, h2]

/-- Witness for C7: clearing the busy channel `chan` erases every
per-channel entry and SIGTERMs the live handle 5. -/
theorem clearSession_clears_all_witness :
    ((Claude.clearSession Samples.sampleManagerState "chan").1.channelProcesses "chan" = none)
    ∧ ((Claude.clearSession Samples.sampleManagerState "chan").1.channelToolCalls "chan" = none)
    ∧ ((Claude.clearSession Samples.sampleManagerState "chan").1.jsonBuffers "chan" = none)
    ∧ ((Claude.clearSession Samples.sampleManagerState "chan").1.channelMessages "chan" = none)
    ∧ ((Claude.clearSession Samples.sampleManagerState "chan").1.channelNames "chan" = none)
    ∧ ((Claude.clearSession Samples.sampleManagerState "chan").1.toolSummaries "chan" = none)
    ∧ ((Claude.clearSession Samples.sampleManagerState "chan").1.dbSessions "chan" = none)
    ∧ (Claude.clearSession Samples.sampleManagerState "chan").2 = [Claude.Signal.sigterm 5] := by
  obtain ⟨h1, h2, h3, h4, h5, h6, h7, h8⟩ :=
    clearSession_clears_all Samples.sampleManagerState "chan" Samples.sampleSlot 5
  exact ⟨h1, h2, h3, h4, h5, h6, h7, h8 rfl rfl⟩

/-- C8: idempotent teardown — clearing a channel twice in a row leaves
exactly the state of a single clear, the second clear sends no signal,
and the close-handler cleanup racing after a clear is likewise a
no-op. -/
theorem clearSession_idempotent (s : Claude.ManagerState) (ch : String) :
    (Claude.clearSession (Claude.clearSession s ch).1 ch).1 = (Claude.clearSession s ch).1
    ∧ (Claude.clearSession (Claude.clearSession s ch).1 ch).2 = []
    ∧ Claude.closeHandlerCleanup (Claude.clearSession s ch).1 ch = (Claude.clearSession s ch).1 := by
  refine ⟨?_, ?_, ?_⟩
  · simp [Claude.clearSession, Claude.fset_fset_none]
  · simp [Claude.clearSession, Claude.killActiveProcess, Claude.fset]
  · simp [Claude.closeHandlerCleanup, Claude.clearSession, Claude.fset_fset_none]

namespace Mcp

theorem alistLookup_erase_self (k : String) (l : List (String × α)) :
    alistLookup k (alistErase k l) = none := by
  induction l with
  | nil => rfl
  | cons e l ih =>
    by_cases h : e.1 = k
    · have hb : (e.1 == k) = true := by simpa using h
      simpa [alistErase, List.filter_cons, hb] using ih
    · have hb : (e.1 == k) = false := by simpa using h
      simp only [alistErase, List.filter_cons, hb, Bool.not_false, if_pos]
      simpa [alistLookup, h, alistErase] using ih

theorem find_erase_none (ch mid rid : String) (l : List (String × PendingApproval))
    (huniq : ∀ e ∈ l, matchesReaction ch mid e.2 = true → e.1 = rid) :
    (alistErase rid l).find? (fun e => matchesReaction ch mid e.2) = none := by
  induction l with
  | nil => rfl
  | cons e l ih =>
    have ih2 := ih (fun x hx hm => huniq x (List.mem_cons_of_mem _ hx) hm)
    by_cases hk : e.1 = rid
    · have hb : (e.1 == rid) = true := by simpa using hk
      simpa [alistErase, List.filter_cons, hb] using ih2
    · have hb : (e.1 == rid) = false := by simpa using hk
      have hm : matchesReaction ch mid e.2 = false := by
        cases hmm : matchesReaction ch mid e.2 with
        | true => exact absurd (huniq e (List.mem_cons_self _ _) hmm) hk
        | false => rfl
      simpa [alistErase, List.filter_cons, hb, List.find?_cons, hm] using ih2

theorem timeoutMessage_ne_denied (ms : Nat) (d : String) :
    timeoutMessage ms d ≠ "Denied by user via Discord reaction" := by
  intro h
  have hT : (timeoutMessage ms d).data.head? = some 'T' := by
    show (("Timed out after "
        ++ (toString (ms / 1000) ++ (" seconds, defaulted to " ++ d))).data).head? = some 'T'
    rw [show ∀ a b : String, (a ++ b).data = a.data ++ b.data from fun a b => rfl]
    rw [show "Timed out after ".data = 'T' :: "imed out after ".data from rfl]
    rfl
  rw [h] at hT
  exact absurd hT (by decide)

end Mcp

/-- C3: exactly-once resolution of a pending approval — when a reaction
signal locates a pending record and comes from the original requester,
the stored resolve continuation is invoked exactly once with the
corresponding allow/deny decision and the record is removed; any
further reaction signal for the same notification message, and any
later timer fire for the same request id, leaves the broker state
unchanged and invokes no continuation. -/
theorem handleApprovalReaction_exactly_once
    (s : Mcp.BrokerState) (ch mid uid uid₂ : String) (approved approved₂ : Bool)
    (rid : String) (p : Mcp.PendingApproval)
    (hfind : s.pendingApprovals.find? (fun e => Mcp.matchesReaction ch mid e.2) = some (rid, p))
    (huid : uid = p.discordContext.userId)
    (huniq : ∀ e ∈ s.pendingApprovals, Mcp.matchesReaction ch mid e.2 = true → e.1 = rid) :
    (Mcp.handleApprovalReaction s ch mid uid approved).2
      = [(rid, { behavior := if approved then "allow" else "deny",
                 updatedInput := if approved then some p.input else none,
                 message := if approved then none
                            else some "Denied by user via Discord reaction" })]
    ∧ Mcp.alistLookup rid (Mcp.handleApprovalReaction s ch mid uid approved).1.pendingApprovals
        = none
    ∧ Mcp.handleApprovalReaction (Mcp.handleApprovalReaction s ch mid uid approved).1
        ch mid uid₂ approved₂
        = ((Mcp.handleApprovalReaction s ch mid uid approved).1, [])
    ∧ Mcp.handleApprovalTimeout (Mcp.handleApprovalReaction s ch mid uid approved).1 rid
        = ((Mcp.handleApprovalReaction s ch mid uid approved).1, []) := by
  have hstep : Mcp.handleApprovalReaction s ch mid uid approved
      = (Mcp.cleanupPendingApproval s rid,
         [(rid, { behavior := if approved then "allow" else "deny",
                  updatedInput := if approved then some p.input else none,
                  message := if approved then none
                             else some "Denied by user via Discord reaction" })]) := by
    simp only [Mcp.handleApprovalReaction, hfind]
    rw [if_pos huid]
  refine ⟨by rw [hstep], ?_, ?_, ?_⟩
  · rw [hstep]
    exact Mcp.alistLookup_erase_self rid s.pendingApprovals
  · rw [hstep]
    simp only [Mcp.handleApprovalReaction, Mcp.cleanupPendingApproval]
    rw [Mcp.find_erase_none ch mid rid s.pendingApprovals huniq]
  · rw [hstep]
    simp only [Mcp.handleApprovalTimeout, Mcp.cleanupPendingApproval]
    rw [Mcp.alistLookup_erase_self rid s.pendingApprovals]

/-- Witness for C3: an approve reaction on the sample broker resolves
the single pending request once; a follow-up deny reaction and a late
timer fire are both no-ops. -/
theorem handleApprovalReaction_exactly_once_witness :
    (Mcp.handleApprovalReaction Samples.sampleBroker "chan" "appr" "user" true).2
      = [("req1", { behavior := "allow", updatedInput := some "rm x", message := none })]
    ∧ Mcp.alistLookup "req1"
        (Mcp.handleApprovalReaction Samples.sampleBroker "chan" "appr" "user" true).1.pendingApprovals
        = none
    ∧ Mcp.handleApprovalReaction
        (Mcp.handleApprovalReaction Samples.sampleBroker "chan" "appr" "user" true).1
        "chan" "appr" "user" false
        = ((Mcp.handleApprovalReaction Samples.sampleBroker "chan" "appr" "user" true).1, [])
    ∧ Mcp.handleApprovalTimeout
        (Mcp.handleApprovalReaction Samples.sampleBroker "chan" "appr" "user" true).1 "req1"
        = ((Mcp.handleApprovalReaction Samples.sampleBroker "chan" "appr" "user" true).1, []) := by
  obtain ⟨h1, h2, h3, h4⟩ :=
    handleApprovalReaction_exactly_once Samples.sampleBroker "chan" "appr" "user" "user"
      true false "req1" Samples.samplePending (by decide) rfl (by decide)
  exact ⟨h1, h2, h3, h4⟩

/-- C4: timeout default — a deadline expiry on a still-pending record
resolves it exactly once with the configured default decision (which is
`deny` when the environment variable is unset), carrying a timeout
reason distinct from the explicit user-denial reason, and removes the
record, so that any later reaction signal for its notification message
and any repeated timer fire leave the broker unchanged and invoke no
continuation. -/
theorem handleApprovalTimeout_default
    (s : Mcp.BrokerState) (rid mid uid₂ : String) (approved₂ : Bool)
    (p : Mcp.PendingApproval)
    (hlook : Mcp.alistLookup rid s.pendingApprovals = some p)
    (huniq : ∀ e ∈ s.pendingApprovals,
      Mcp.matchesReaction p.discordContext.channelId mid e.2 = true → e.1 = rid) :
    (Mcp.handleApprovalTimeout s rid).2
      = [(rid, { behavior := s.defaultOnTimeout,
                 updatedInput := if s.defaultOnTimeout = "allow" then some p.input else none,
                 message := some (Mcp.timeoutMessage s.approvalTimeout s.defaultOnTimeout) })]
    ∧ Mcp.timeoutMessage s.approvalTimeout s.defaultOnTimeout
        ≠ "Denied by user via Discord reaction"
    ∧ Mcp.mkDefaultOnTimeout none = "deny"
    ∧ Mcp.alistLookup rid (Mcp.handleApprovalTimeout s rid).1.pendingApprovals = none
    ∧ Mcp.handleApprovalReaction (Mcp.handleApprovalTimeout s rid).1
        p.discordContext.channelId mid uid₂ approved₂
        = ((Mcp.handleApprovalTimeout s rid).1, [])
    ∧ Mcp.handleApprovalTimeout (Mcp.handleApprovalTimeout s rid).1 rid
        = ((Mcp.handleApprovalTimeout s rid).1, []) := by
  have hstep : Mcp.handleApprovalTimeout s rid
      = (Mcp.cleanupPendingApproval s rid,
         [(rid, { behavior := s.defaultOnTimeout,
                  updatedInput := if s.defaultOnTimeout = "allow" then some p.input else none,
                  message := some (Mcp.timeoutMessage s.approvalTimeout s.defaultOnTimeout) })]) := by
    simp only [Mcp.handleApprovalTimeout, hlook]
  refine ⟨by rw [hstep], Mcp.timeoutMessage_ne_denied _ _, rfl, ?_, ?_, ?_⟩
  · rw [hstep]
    exact Mcp.alistLookup_erase_self rid s.pendingApprovals
  · rw [hstep]
    simp only [Mcp.handleApprovalReaction, Mcp.cleanupPendingApproval]
    rw [Mcp.find_erase_none p.discordContext.channelId mid rid s.pendingApprovals huniq]
  · rw [hstep]
    simp only [Mcp.handleApprovalTimeout, Mcp.cleanupPendingApproval]
    rw [Mcp.alistLookup_erase_self rid s.pendingApprovals]

/-- Witness for C4: the timer firing on the sample broker resolves its
single pending request to the default `deny` with the timeout reason;
a later approve reaction and a repeated fire are no-ops. -/
theorem handleApprovalTimeout_default_witness :
    (Mcp.handleApprovalTimeout Samples.sampleBroker "req1").2
      = [("req1", { behavior := "deny", updatedInput := none,
                    message := some (Mcp.timeoutMessage 30000 "deny") })]
    ∧ Mcp.timeoutMessage 30000 "deny" ≠ "Denied by user via Discord reaction"
    ∧ Mcp.mkDefaultOnTimeout none = "deny"
    ∧ Mcp.alistLookup "req1" (Mcp.handleApprovalTimeout Samples.sampleBroker "req1").1.pendingApprovals
        = none
    ∧ Mcp.handleApprovalReaction (Mcp.handleApprovalTimeout Samples.sampleBroker "req1").1
        "chan" "appr" "user" true
        = ((Mcp.handleApprovalTimeout Samples.sampleBroker "req1").1, [])
    ∧ Mcp.handleApprovalTimeout (Mcp.handleApprovalTimeout Samples.sampleBroker "req1").1 "req1"
        = ((Mcp.handleApprovalTimeout Samples.sampleBroker "req1").1, []) := by
  obtain ⟨h1, h2, h3, h4, h5, h6⟩ :=
    handleApprovalTimeout_default Samples.sampleBroker "req1" "appr" "user" true
      Samples.samplePending (by decide) (by decide)
  exact ⟨h1, h2, h3, h4, h5, h6⟩

namespace Mcp

theorem alistLookup_none_any (k : String) (l : List (String × α))
    (h : alistLookup k l = none) : l.any (fun e => e.1 == k) = false := by
  induction l with
  | nil => rfl
  | cons e l ih =>
    by_cases hk : e.1 = k
    · simp [alistLookup, hk] at h
    · have hb : (e.1 == k) = false := by simpa using hk
      have h2 : alistLookup k l = none := by simpa [alistLookup, hk] using h
      simp [List.any_cons, hb, ih h2]

theorem alistSet_fresh (k : String) (v : α) (l : List (String × α))
    (h : alistLookup k l = none) : alistSet k v l = l ++ [(k, v)] := by
  simp [alistSet, alistLookup_none_any k l h]

theorem alistLookup_append_self (k : String) (v : α) (l : List (String × α))
    (h : alistLookup k l = none) : alistLookup k (l ++ [(k, v)]) = some v := by
  induction l with
  | nil => simp [alistLookup]
  | cons e l ih =>
    by_cases hk : e.1 = k
    · simp [alistLookup, hk] at h
    · have h2 : alistLookup k l = none := by simpa [alistLookup, hk] using h
      simpa [alistLookup, hk] using ih h2

end Mcp

/-- C5: approval determinism of `requestApproval` — a tool the static
risk classifier calls safe is resolved immediately with an allow
decision carrying the unchanged input, with no pending approval created
and no notification sent; a tool the classifier says requires approval
gets a pending record registered under the generated request id with no
decision produced; and every name outside the static safe list (in
particular every unrecognized name) requires approval. -/
theorem requestApproval_determinism
    (s : Mcp.BrokerState) (tool input t i : String) (c : Mcp.DiscordCtx) (rid : String)
    (hfresh : Mcp.alistLookup rid s.pendingApprovals = none) :
    (Mcp.requiresApproval tool input = false →
       Mcp.requestApproval s true tool input (some c) rid
         = (s, Mcp.ApprovalOutcome.decided
                 { behavior := "allow", updatedInput := some input, message := none }, []))
    ∧ (Mcp.requiresApproval tool input = true →
       Mcp.alistLookup rid (Mcp.requestApproval s true tool input (some c) rid).1.pendingApprovals
           = some (Mcp.mkPending rid tool input c)
         ∧ (Mcp.requestApproval s true tool input (some c) rid).2.1
             = Mcp.ApprovalOutcome.pendingInteractive rid
         ∧ (Mcp.requestApproval s true tool input (some c) rid).2.2
             = [Mcp.BrokerEffect.sendApprovalMessage rid])
    ∧ (Mcp.safeTools.contains t = false → Mcp.requiresApproval t i = true) := by
  refine ⟨?_, ?_, ?_⟩
  · intro h
    simp [Mcp.requestApproval, h]
  · intro h
    refine ⟨?_, ?_, ?_⟩
    · simp only [Mcp.requestApproval, h, Bool.not_true, Bool.false_eq_true, if_false,
        Bool.not_false, if_true]
      rw [Mcp.alistSet_fresh rid _ s.pendingApprovals hfresh]
      exact Mcp.alistLookup_append_self rid _ s.pendingApprovals hfresh
    · simp [Mcp.requestApproval, h]
    · simp [Mcp.requestApproval, h]
  · intro h
    simp only [Mcp.requiresApproval, h, Bool.not_false]

/-- Witness for C5: `Read` is auto-approved with its input unchanged
and no state change or notification, and the unrecognized name
`SomeNewTool` requires approval. -/
theorem requestApproval_determinism_witness :
    Mcp.requestApproval Samples.sampleBroker true "Read" "notes.txt" (some Samples.sampleCtx) "req2"
      = (Samples.sampleBroker,
         Mcp.ApprovalOutcome.decided
           { behavior := "allow", updatedInput := some "notes.txt", message := none }, [])
    ∧ Mcp.requiresApproval "SomeNewTool" "x" = true := by
  obtain ⟨h1, h2, h3⟩ :=
    requestApproval_determinism Samples.sampleBroker "Read" "notes.txt" "SomeNewTool" "x"
      Samples.sampleCtx "req2" (by decide)
  exact ⟨h1 (by decide), h3 (by decide)⟩

/-- C6: the message-handling path is *not* an uninterrupted
check-then-reserve — between the `hasActiveProcess` busy check and the
`reserveChannel` installation, `handleMessage` awaits the status-embed
send (and, for audio messages, three further transcription awaits), so
the check and the reservation are separated by awaited asynchronous
operations. -/
theorem handleMessage_awaits_between_check_and_reserve :
    Bot.awaitsBetweenCheckAndReserve (Bot.handleMessageSteps false) = 1
    ∧ Bot.awaitsBetweenCheckAndReserve (Bot.handleMessageSteps true) = 4 := by
  constructor <;> rfl
